import Mathlib

/-!
# Verification of the etcd2s3 retention / reconciliation / name-resolution core

Shallow embedding of the decision core of the etcd2s3 snapshot manager:

* `pkg/retention` — `determineSnapshotsToKeep`, `GetRetentionStatus`,
  `GetUnifiedRetentionStatus`, `createUnifiedSnapshotList`,
  `applyRetentionToLocal`, `applyRetentionToS3`, `ApplyUnified`;
* `pkg/compression` — the extension table, `GetCompressionExt`,
  `GetCompressionAlgorithmFromExt`, `IsCompressed`, `ResolveCompressedFilename`;
* `pkg/s3` — `ResolveCompressedKey` over an abstract existence probe;
* `cmd` — the gap-finding loop of `uploadMissingSnapshots` and the
  resolution/error step of `downloadSnapshot`.

Modelling conventions:

* Go strings are lists of characters (`GoStr`).
* Go `time.Time` values are integer nanosecond timestamps; `t.After(u)` is the
  strict comparison `u < t`; `time.Duration` arithmetic is unbounded integer
  arithmetic on nanoseconds (the int64 range is never approached by real
  policies or timestamps).
* `map[string]bool` verdicts record only `true` entries, so they are modelled
  by the list of marked names with membership lookup (`lookupKeep`).
* The evaluator sorts its input slice with Go's `sort.Slice`, which since
  Go 1.19 is pattern-defeating quicksort (`zsortanyfunc.go`) and is *not*
  stable.  Because tie behaviour of that sort is load-bearing for the spec,
  the algorithm is embedded faithfully below (`sortSliceGo`): insertion sort,
  heap sort, pivot selection with median/ninther, pattern breaking with the
  xorshift generator, partial insertion sort, and the two partition schemes.
  Loops are expressed with explicit fuel; every fuel bound at a call site
  dominates the loop's iteration count, and the permutation results proved
  about the sort hold for every fuel value.
* In-place mutation of the caller's slice by the sort is modelled by
  returning the post-call slice contents next to the verdict.
-/

namespace Etcd2S3

/-- Go strings (`string`), as lists of characters. -/
abbrev GoStr := List Char

/-- Go `error` results: `none` is `nil`, `some msg` an error value. -/
abbrev GoError := Option GoStr

/-- `retention.SnapshotFile`. -/
structure SnapshotFile where
  Name : GoStr
  Path : GoStr
  Size : Int
  ModTime : Int
  IsRemote : Bool
deriving DecidableEq, Repr, Inhabited

/-- `appconfig.RetentionPolicy`.  `RemoveLocal` and `Timeout` are carried for
fidelity; the evaluator never reads them. -/
structure RetentionPolicy where
  KeepLast : Int
  KeepLastDays : Int
  KeepLastHours : Int
  KeepLastWeeks : Int
  KeepLastMonths : Int
  KeepLastYears : Int
  RemoveLocal : Bool
  Timeout : Int
deriving DecidableEq, Repr

/-- `time.Hour` in nanoseconds. -/
def goHour : Int := 3600 * 1000000000

/-! ## Go `sort.Slice` (pdqsort, `zsortanyfunc.go`)

The comparator is abstract (`lt`); the retention code instantiates it with
`snapshots[i].ModTime.After(snapshots[j].ModTime)`.  `data.Swap` never sees an
out-of-range index in the algorithm, so the guarded `swp` below matches the Go
behaviour on every reachable call. -/

/-- `data.Swap(i, j)` (bounds-guarded; Go would panic out of range, which the
algorithm never does). -/
def swp (a : Array α) (i j : Nat) : Array α :=
  if h : i < a.size ∧ j < a.size then a.swap ⟨i, h.1⟩ ⟨j, h.2⟩ else a

/-- `data.Less(i, j)`. -/
def lessAt [Inhabited α] (lt : α → α → Bool) (a : Array α) (i j : Nat) : Bool :=
  lt a[i]! a[j]!

/-- Inner loop of Go `insertionSort`: shift element `j` left while smaller than
its left neighbour and above `a`. -/
def insSortInner [Inhabited α] (lt : α → α → Bool) : Nat → Array α → Nat → Nat → Array α
  | 0, arr, _, _ => arr
  | fuel + 1, arr, a, j =>
    if a < j ∧ lessAt lt arr j (j - 1) then
      insSortInner lt fuel (swp arr j (j - 1)) a (j - 1)
    else arr

/-- Outer loop of Go `insertionSort`, over `i = a+1, …, b-1`. -/
def insSortOuter [Inhabited α] (lt : α → α → Bool) : Nat → Array α → Nat → Nat → Nat → Array α
  | 0, arr, _, _, _ => arr
  | fuel + 1, arr, a, b, i =>
    if i < b then insSortOuter lt fuel (insSortInner lt i arr a i) a b (i + 1)
    else arr

/-- Go `insertionSort(data, a, b)`. -/
def insertionSortGo [Inhabited α] (lt : α → α → Bool) (arr : Array α) (a b : Nat) : Array α :=
  insSortOuter lt (b + 1) arr a b (a + 1)

/-- Go `siftDown(data, lo, hi, first)` (the loop; `root` starts at `lo`). -/
def siftDownGo [Inhabited α] (lt : α → α → Bool) : Nat → Array α → Nat → Nat → Nat → Array α
  | 0, arr, _, _, _ => arr
  | fuel + 1, arr, hi, first, root =>
    let child := 2 * root + 1
    if child < hi then
      let child :=
        if child + 1 < hi ∧ lessAt lt arr (first + child) (first + child + 1) then child + 1
        else child
      if lessAt lt arr (first + root) (first + child) then
        siftDownGo lt fuel (swp arr (first + root) (first + child)) hi first child
      else arr
    else arr

/-- Heap-building phase of Go `heapSort`: `for i := (hi-1)/2; i >= 0; i--`.
`k + 1` pending iterations mean the next root is `k`. -/
def heapBuild [Inhabited α] (lt : α → α → Bool) : Nat → Array α → Nat → Nat → Array α
  | 0, arr, _, _ => arr
  | k + 1, arr, first, hi => heapBuild lt k (siftDownGo lt hi arr hi first k) first hi

/-- Pop phase of Go `heapSort`: `for i := hi - 1; i >= 0; i--`. -/
def heapPop [Inhabited α] (lt : α → α → Bool) : Nat → Array α → Nat → Array α
  | 0, arr, _ => arr
  | k + 1, arr, first =>
    heapPop lt k (siftDownGo lt (k + 1) (swp arr first (first + k)) k first 0) first

/-- Go `heapSort(data, a, b)`. -/
def heapSortGo [Inhabited α] (lt : α → α → Bool) (arr : Array α) (a b : Nat) : Array α :=
  let first := a
  let hi := b - a
  heapPop lt hi (heapBuild lt ((hi - 1) / 2 + 1) arr first hi) first

/-- Go sort's `sortedHint`. -/
inductive SortedHint where
  | increasingHint
  | decreasingHint
  | unknownHint
deriving DecidableEq, Repr

/-- Go `order2(data, a, b, &swaps)`. -/
def order2 [Inhabited α] (lt : α → α → Bool) (arr : Array α) (a b swaps : Nat) :
    Nat × Nat × Nat :=
  if lessAt lt arr b a then (b, a, swaps + 1) else (a, b, swaps)

/-- Go `median(data, a, b, c, &swaps)`. -/
def medianGo [Inhabited α] (lt : α → α → Bool) (arr : Array α) (a b c swaps : Nat) :
    Nat × Nat :=
  match order2 lt arr a b swaps with
  | (a1, b1, s1) =>
    match order2 lt arr b1 c s1 with
    | (b2, _, s2) =>
      match order2 lt arr a1 b2 s2 with
      | (_, b3, s3) => (b3, s3)

/-- Go `medianAdjacent(data, a, &swaps)`. -/
def medianAdjacentGo [Inhabited α] (lt : α → α → Bool) (arr : Array α) (a swaps : Nat) :
    Nat × Nat :=
  medianGo lt arr (a - 1) a (a + 1) swaps

/-- Go `choosePivot(data, a, b)`: static pivot below 8 elements, median of
three up to 49, Tukey ninther from 50; `maxSwaps = 12`. -/
def choosePivotGo [Inhabited α] (lt : α → α → Bool) (arr : Array α) (a b : Nat) :
    Nat × SortedHint :=
  let l := b - a
  let i := a + l / 4 * 1
  let j := a + l / 4 * 2
  let k := a + l / 4 * 3
  if 8 ≤ l then
    let (i1, j1, k1, s1) :=
      if 50 ≤ l then
        let (i1, si) := medianAdjacentGo lt arr i 0
        let (j1, sj) := medianAdjacentGo lt arr j si
        let (k1, sk) := medianAdjacentGo lt arr k sj
        (i1, j1, k1, sk)
      else (i, j, k, 0)
    let (j2, s2) := medianGo lt arr i1 j1 k1 s1
    if s2 = 0 then (j2, SortedHint.increasingHint)
    else if s2 = 12 then (j2, SortedHint.decreasingHint)
    else (j2, SortedHint.unknownHint)
  else (j, SortedHint.increasingHint)

/-- Go `reverseRange(data, a, b)` expressed on the inclusive pair
`i = a`, `j = b - 1`. -/
def reverseRangeGo : Nat → Array α → Nat → Nat → Array α
  | 0, arr, _, _ => arr
  | fuel + 1, arr, i, j => if i < j then reverseRangeGo fuel (swp arr i j) (i + 1) (j - 1) else arr

/-- One step of Go sort's `xorshift` pseudo-random generator (uint64). -/
def xorshiftNext (r : Nat) : Nat :=
  let r := (r ^^^ (r <<< 13)) % 2 ^ 64
  let r := (r ^^^ (r >>> 7)) % 2 ^ 64
  (r ^^^ (r <<< 17)) % 2 ^ 64

/-- Go `bits.Len` on a natural number. -/
def bitsLen (n : Nat) : Nat := if n = 0 then 0 else n.log2 + 1

/-- One pattern-breaking swap of Go `breakPatterns`: draw from the generator,
mask by `modulus - 1`, reduce below `length`, swap with `idx`. -/
def breakPatternsStep (st : Array α × Nat) (a length modulus idx : Nat) : Array α × Nat :=
  let r := xorshiftNext st.2
  let othr := r &&& (modulus - 1)
  let othr := if length ≤ othr then othr - length else othr
  (swp st.1 idx (a + othr), r)

/-- Go `breakPatterns(data, a, b)`: three swaps around `a + 2*(length/4)`,
generator seeded with `length`, modulus the next power of two. -/
def breakPatternsGo (arr : Array α) (a b : Nat) : Array α :=
  let length := b - a
  if 8 ≤ length then
    let modulus := 2 ^ bitsLen length
    let c := a + length / 4 * 2
    let st := breakPatternsStep (arr, length) a length modulus (c - 1)
    let st := breakPatternsStep st a length modulus c
    let st := breakPatternsStep st a length modulus (c + 1)
    st.1
  else arr

/-- Scan of Go's partial insertion sort: advance `i` while the run stays
sorted (`!Less(i, i-1)`). -/
def scanSorted [Inhabited α] (lt : α → α → Bool) (arr : Array α) : Nat → Nat → Nat → Nat
  | 0, _, i => i
  | fuel + 1, b, i =>
    if i < b ∧ ¬ lessAt lt arr i (i - 1) then scanSorted lt arr fuel b (i + 1) else i

/-- Leftward shift loop of Go's partial insertion sort
(`for j := i-1; j >= 1; j--`). -/
def shiftLeftLoop [Inhabited α] (lt : α → α → Bool) : Nat → Array α → Nat → Array α
  | 0, arr, _ => arr
  | fuel + 1, arr, j =>
    if 1 ≤ j ∧ lessAt lt arr j (j - 1) then shiftLeftLoop lt fuel (swp arr j (j - 1)) (j - 1)
    else arr

/-- Rightward shift loop of Go's partial insertion sort
(`for j := i+1; j < b; j++`). -/
def shiftRightLoop [Inhabited α] (lt : α → α → Bool) : Nat → Array α → Nat → Nat → Array α
  | 0, arr, _, _ => arr
  | fuel + 1, arr, b, j =>
    if j < b ∧ lessAt lt arr j (j - 1) then shiftRightLoop lt fuel (swp arr j (j - 1)) b (j + 1)
    else arr

/-- The `maxSteps = 5` rounds of Go sort's partial insertion sort
(`shortestShifting = 50`); returns the array and whether it ended sorted. -/
def maybeInsSortSteps [Inhabited α] (lt : α → α → Bool) :
    Nat → Array α → Nat → Nat → Nat → Array α × Bool
  | 0, arr, _, _, _ => (arr, false)
  | steps + 1, arr, a, b, i =>
    let i := scanSorted lt arr b b i
    if i = b then (arr, true)
    else if b - a < 50 then (arr, false)
    else
      let arr := swp arr i (i - 1)
      let arr := if 2 ≤ i - a then shiftLeftLoop lt i arr (i - 1) else arr
      let arr := if 2 ≤ b - i then shiftRightLoop lt b arr b (i + 1) else arr
      maybeInsSortSteps lt steps arr a b i

/-- Go sort's `partialInsertionSort(data, a, b)`. -/
def maybeInsSortGo [Inhabited α] (lt : α → α → Bool) (arr : Array α) (a b : Nat) :
    Array α × Bool :=
  maybeInsSortSteps lt 5 arr a b (a + 1)

/-- `for i <= j && data.Less(i, a)` scan of Go `partition`. -/
def scanLess [Inhabited α] (lt : α → α → Bool) (arr : Array α) (pivotIdx : Nat) :
    Nat → Nat → Nat → Nat
  | 0, _, i => i
  | fuel + 1, j, i =>
    if i ≤ j ∧ lessAt lt arr i pivotIdx then scanLess lt arr pivotIdx fuel j (i + 1) else i

/-- `for i <= j && !data.Less(j, a)` scan of Go `partition`. -/
def scanNotLess [Inhabited α] (lt : α → α → Bool) (arr : Array α) (pivotIdx i : Nat) :
    Nat → Nat → Nat
  | 0, j => j
  | fuel + 1, j =>
    if i ≤ j ∧ ¬ lessAt lt arr j pivotIdx then scanNotLess lt arr pivotIdx i fuel (j - 1) else j

/-- The steady-state loop of Go `partition`; returns the array and the final
`j`. -/
def partitionLoop [Inhabited α] (lt : α → α → Bool) (pivotIdx : Nat) :
    Nat → Array α → Nat → Nat → Array α × Nat
  | 0, arr, _, j => (arr, j)
  | fuel + 1, arr, i, j =>
    let i := scanLess lt arr pivotIdx (j + 1) j i
    let j := scanNotLess lt arr pivotIdx i (j + 1) j
    if j < i then (arr, j)
    else partitionLoop lt pivotIdx fuel (swp arr i j) (i + 1) (j - 1)

/-- Go `partition(data, a, b, pivot)`: moves the pivot to `a`, partitions
`data[a+1:b]`, returns the pivot's final position and whether the range was
already partitioned. -/
def partitionGo [Inhabited α] (lt : α → α → Bool) (arr : Array α) (a b pivot : Nat) :
    Array α × Nat × Bool :=
  let arr := swp arr a pivot
  let j := b - 1
  let i1 := scanLess lt arr a (j + 1) j (a + 1)
  let j1 := scanNotLess lt arr a i1 (j + 1) j
  if j1 < i1 then (swp arr j1 a, j1, true)
  else
    let arr := swp arr i1 j1
    let res := partitionLoop lt a (b + 1) arr (i1 + 1) (j1 - 1)
    (swp res.1 res.2 a, res.2, false)

/-- `for i <= j && !data.Less(a, i)` scan of Go `partitionEqual`. -/
def scanNotGt [Inhabited α] (lt : α → α → Bool) (arr : Array α) (pivotIdx : Nat) :
    Nat → Nat → Nat → Nat
  | 0, _, i => i
  | fuel + 1, j, i =>
    if i ≤ j ∧ ¬ lessAt lt arr pivotIdx i then scanNotGt lt arr pivotIdx fuel j (i + 1) else i

/-- `for i <= j && data.Less(a, j)` scan of Go `partitionEqual`. -/
def scanGt [Inhabited α] (lt : α → α → Bool) (arr : Array α) (pivotIdx i : Nat) :
    Nat → Nat → Nat
  | 0, j => j
  | fuel + 1, j =>
    if i ≤ j ∧ lessAt lt arr pivotIdx j then scanGt lt arr pivotIdx i fuel (j - 1) else j

/-- The loop of Go `partitionEqual`; returns the array and the final `i`. -/
def partitionEqLoop [Inhabited α] (lt : α → α → Bool) (pivotIdx : Nat) :
    Nat → Array α → Nat → Nat → Array α × Nat
  | 0, arr, i, _ => (arr, i)
  | fuel + 1, arr, i, j =>
    let i := scanNotGt lt arr pivotIdx (j + 1) j i
    let j := scanGt lt arr pivotIdx i (j + 1) j
    if j < i then (arr, i)
    else partitionEqLoop lt pivotIdx fuel (swp arr i j) (i + 1) (j - 1)

/-- Go `partitionEqual(data, a, b, pivot)`. -/
def partitionEqualGo [Inhabited α] (lt : α → α → Bool) (arr : Array α) (a b pivot : Nat) :
    Array α × Nat :=
  let arr := swp arr a pivot
  partitionEqLoop lt a (b + 1) arr (a + 1) (b - 1)

/-- The prefix of one `pdqsort` loop iteration before the partitioning
decision: pattern breaking with a limit decrement when the previous
partitioning was imbalanced, pivot choice, reversal on a decreasing hint, and
the likely-sorted `partialInsertionSort` attempt.  Returns the updated array,
the early-return flag, the (possibly remapped) pivot, and the updated limit. -/
def pdqPrep [Inhabited α] (lt : α → α → Bool) (arr : Array α) (a b limit : Nat)
    (wasBalanced wasPartitioned : Bool) : Array α × Bool × Nat × Nat :=
  let arr1 := if wasBalanced then arr else breakPatternsGo arr a b
  let limit1 := if wasBalanced then limit else limit - 1
  let pv := choosePivotGo lt arr1 a b
  let arr2 := if pv.2 = SortedHint.decreasingHint then reverseRangeGo b arr1 a (b - 1) else arr1
  let pivot := if pv.2 = SortedHint.decreasingHint then b - 1 - (pv.1 - a) else pv.1
  let hint := if pv.2 = SortedHint.decreasingHint then SortedHint.increasingHint else pv.2
  let pins :=
    if wasBalanced ∧ wasPartitioned ∧ hint = SortedHint.increasingHint then
      maybeInsSortGo lt arr2 a b
    else (arr2, false)
  (pins.1, pins.2, pivot, limit1)

/-- Go `pdqsort(data, a, b, limit)` with the per-iteration state
`wasBalanced` / `wasPartitioned` made explicit (`true` on entry); the `for`
loop's `continue` is modelled as a fuelled tail call. -/
def pdqsortGo [Inhabited α] (lt : α → α → Bool) :
    Nat → Array α → Nat → Nat → Nat → Bool → Bool → Array α
  | 0, arr, _, _, _, _, _ => arr
  | fuel + 1, arr, a, b, limit, wasBalanced, wasPartitioned =>
    let length := b - a
    if length ≤ 12 then insertionSortGo lt arr a b
    else if limit = 0 then heapSortGo lt arr a b
    else
      let prep := pdqPrep lt arr a b limit wasBalanced wasPartitioned
      let arr3 := prep.1
      let pivot := prep.2.2.1
      let limit1 := prep.2.2.2
      if prep.2.1 then arr3
      else if 0 < a ∧ ¬ lessAt lt arr3 (a - 1) pivot then
        let pe := partitionEqualGo lt arr3 a b pivot
        pdqsortGo lt fuel pe.1 pe.2 b limit1 wasBalanced wasPartitioned
      else
        let pt := partitionGo lt arr3 a b pivot
        let mid := pt.2.1
        let leftLen := mid - a
        let rightLen := b - mid
        let wasBalanced2 := decide (length / 8 ≤ min leftLen rightLen)
        if leftLen < rightLen then
          pdqsortGo lt fuel (pdqsortGo lt fuel pt.1 a mid limit1 true true)
            (mid + 1) b limit1 wasBalanced2 pt.2.2
        else
          pdqsortGo lt fuel (pdqsortGo lt fuel pt.1 (mid + 1) b limit1 true true)
            a mid limit1 wasBalanced2 pt.2.2

/-- Go `sort.Slice(x, less)`: pdqsort over the whole slice with recursion
budget `bits.Len(len(x))`.  Every chain of loop iterations and recursive
calls shortens the segment or the limit, so the fuel below dominates it. -/
def sortSliceGo [Inhabited α] (lt : α → α → Bool) (xs : Array α) : Array α :=
  pdqsortGo lt (2 * xs.size + 2 * bitsLen xs.size + 16) xs 0 xs.size (bitsLen xs.size) true true

/-! ## Retention evaluator (`pkg/retention`) -/

/-- Strict order on integers computed directly on the constructors (so that
concrete evaluation stays cheap); `intLtb_iff` below proves it is `<`. -/
def intLtb : Int → Int → Bool
  | Int.ofNat m, Int.ofNat n => Nat.blt m n
  | Int.ofNat _, Int.negSucc _ => false
  | Int.negSucc _, Int.ofNat _ => true
  | Int.negSucc m, Int.negSucc n => Nat.blt n m

theorem intLtb_iff (a b : Int) : intLtb a b = true ↔ a < b := by
  cases a <;> cases b <;> simp [intLtb, Nat.blt_eq, Int.negSucc_eq] <;> omega

/-- Non-strict order on integers computed directly on the constructors;
`intLeb_iff` below proves it is `≤`. -/
def intLeb : Int → Int → Bool
  | Int.ofNat m, Int.ofNat n => Nat.ble m n
  | Int.ofNat _, Int.negSucc _ => false
  | Int.negSucc _, Int.ofNat _ => true
  | Int.negSucc m, Int.negSucc n => Nat.ble n m

theorem intLeb_iff (a b : Int) : intLeb a b = true ↔ a ≤ b := by
  cases a <;> cases b <;> simp [intLeb, Nat.ble_eq, Int.negSucc_eq] <;> omega

/-- The `sort.Slice` comparator of `determineSnapshotsToKeep`:
`snapshots[i].ModTime.After(snapshots[j].ModTime)`, the strict "later than"
test. -/
def snapLess (x y : SnapshotFile) : Bool := intLtb y.ModTime x.ModTime

/-- The names marked by the five `KeepLastX`-window conditions of the loop body
of `determineSnapshotsToKeep` for one snapshot: each Go condition
`m.policy.KeepLastX > 0 && age <= time.Duration(m.policy.KeepLastX)*unit`
(a Boolean conjunction) writes `toKeep[name] = true` when it holds. -/
def windowMarks (m : RetentionPolicy) (now : Int) (s : SnapshotFile) : List GoStr :=
  let age := now - s.ModTime
  (if intLtb 0 m.KeepLastHours && intLeb age (m.KeepLastHours * goHour) then [s.Name] else []) ++
  (if intLtb 0 m.KeepLastDays && intLeb age (m.KeepLastDays * 24 * goHour) then [s.Name]
   else []) ++
  (if intLtb 0 m.KeepLastWeeks && intLeb age (m.KeepLastWeeks * 7 * 24 * goHour) then [s.Name]
   else []) ++
  (if intLtb 0 m.KeepLastMonths && intLeb age (m.KeepLastMonths * 30 * 24 * goHour) then [s.Name]
   else []) ++
  (if intLtb 0 m.KeepLastYears && intLeb age (m.KeepLastYears * 365 * 24 * goHour) then [s.Name]
   else [])

/-- `determineSnapshotsToKeep(snapshots)`: sorts the slice in place with
`sort.Slice` (newest first), marks the first `KeepLast` names when
`KeepLast > 0`, then marks every name whose age falls in an enabled window.
Returns the caller's slice contents after the call together with the set of
marked names (the `map[string]bool` holds only `true` entries, so it is the
list of marked names). -/
def determineSnapshotsToKeep (m : RetentionPolicy) (now : Int) (snapshots : List SnapshotFile) :
    List SnapshotFile × List GoStr :=
  let sorted := (sortSliceGo snapLess snapshots.toArray).toList
  let keepLastMarks :=
    if intLtb 0 m.KeepLast then (sorted.take m.KeepLast.toNat).map (fun s => s.Name) else []
  (sorted, sorted.foldl (fun acc s => acc ++ windowMarks m now s) keepLastMarks)

/-- `map[string]bool` lookup with Go's default `false` for absent keys. -/
def lookupKeep (toKeep : List GoStr) (name : GoStr) : Bool := toKeep.contains name

/-- `GetRetentionStatus` (the exposed `Evaluate`): hands the caller's slice to
`determineSnapshotsToKeep` and returns the verdict. -/
def GetRetentionStatus (m : RetentionPolicy) (now : Int) (snapshots : List SnapshotFile) :
    List GoStr :=
  (determineSnapshotsToKeep m now snapshots).2

/-- Go `map[string]SnapshotFile` as an association list (update in place,
append fresh keys).  Go's iteration order over the map is unspecified; the
insertion order used here is one admissible order, and no claim below depends
on the order of the converted slice. -/
def mapPut : List (GoStr × SnapshotFile) → GoStr → SnapshotFile → List (GoStr × SnapshotFile)
  | [], k, v => [(k, v)]
  | p :: mp, k, v => if p.1 = k then (k, v) :: mp else p :: mapPut mp k v

/-- Go map read `mp[k]` with its `ok` flag collapsed into `Option`. -/
def mapGet : List (GoStr × SnapshotFile) → GoStr → Option SnapshotFile
  | [], _ => none
  | p :: mp, k => if p.1 = k then some p.2 else mapGet mp k

/-- The `snapshotMap` of `createUnifiedSnapshotList` after seeding with the
local snapshots and folding in the S3 snapshots (`existing.ModTime` must be
strictly older — `s3Snapshot.ModTime.After(existing.ModTime)` — for the S3
record to replace it). -/
def unifiedSnapshotMap (localSnapshots s3Snapshots : List SnapshotFile) :
    List (GoStr × SnapshotFile) :=
  let m0 := localSnapshots.foldl (fun mp s => mapPut mp s.Name s) []
  s3Snapshots.foldl (fun mp s =>
    match mapGet mp s.Name with
    | some existing => if existing.ModTime < s.ModTime then mapPut mp s.Name s else mp
    | none => mapPut mp s.Name s) m0

/-- `createUnifiedSnapshotList(localSnapshots, s3Snapshots)`. -/
def createUnifiedSnapshotList (localSnapshots s3Snapshots : List SnapshotFile) :
    List SnapshotFile :=
  (unifiedSnapshotMap localSnapshots s3Snapshots).map (fun p => p.2)

/-- `GetUnifiedRetentionStatus(localSnapshots, s3Snapshots)`. -/
def GetUnifiedRetentionStatus (m : RetentionPolicy) (now : Int)
    (localSnapshots s3Snapshots : List SnapshotFile) : List GoStr :=
  (determineSnapshotsToKeep m now (createUnifiedSnapshotList localSnapshots s3Snapshots)).2

/-- `applyRetentionToLocal` (with `dryRun = false`): counts kept and deleted
records; `os.Remove(snapshot.Path)` is the external effect, modelled by the
returned list of records it is invoked for. -/
def applyRetentionToLocal (snapshots : List SnapshotFile) (retentionDecisions : List GoStr) :
    Nat × Nat × List SnapshotFile :=
  snapshots.foldl (fun acc s =>
    if lookupKeep retentionDecisions s.Name then (acc.1 + 1, acc.2.1, acc.2.2)
    else (acc.1, acc.2.1 + 1, acc.2.2 ++ [s])) (0, 0, [])

/-- `applyRetentionToS3` (with `dryRun = false`): same loop; the collected
records' paths form `keysToDelete`, handed to `DeleteMultiple`. -/
def applyRetentionToS3 (snapshots : List SnapshotFile) (retentionDecisions : List GoStr) :
    Nat × Nat × List SnapshotFile :=
  snapshots.foldl (fun acc s =>
    if lookupKeep retentionDecisions s.Name then (acc.1 + 1, acc.2.1, acc.2.2)
    else (acc.1, acc.2.1 + 1, acc.2.2 ++ [s])) (0, 0, [])

/-- `ApplyUnified` (decision core, `dryRun = false`): one unified verdict,
applied independently to the original local and S3 listings. -/
def ApplyUnified (m : RetentionPolicy) (now : Int)
    (localSnapshots s3Snapshots : List SnapshotFile) :
    (Nat × Nat × List SnapshotFile) × (Nat × Nat × List SnapshotFile) :=
  let retentionDecisions := GetUnifiedRetentionStatus m now localSnapshots s3Snapshots
  (applyRetentionToLocal localSnapshots retentionDecisions,
   applyRetentionToS3 s3Snapshots retentionDecisions)

/-- The gap-finding core of `uploadMissingSnapshots` (snapshot command): the
S3 name set, the retention decisions (unified or local-only), and the
`toUpload` selection loop.  Listing and uploading are external effects. -/
def uploadMissingSnapshots (unified : Bool) (m : RetentionPolicy) (now : Int)
    (localSnapshots s3Snapshots : List SnapshotFile) : List SnapshotFile :=
  let s3SnapshotNames := s3Snapshots.map (fun s => s.Name)
  let retentionDecisions :=
    if unified then GetUnifiedRetentionStatus m now localSnapshots s3Snapshots
    else GetRetentionStatus m now localSnapshots
  localSnapshots.foldl (fun toUpload s =>
    if lookupKeep retentionDecisions s.Name && !(s3SnapshotNames.contains s.Name) then
      toUpload ++ [s]
    else toUpload) []

/-! ## Compression-aware name resolution (`pkg/compression`, `pkg/s3`, `cmd`) -/

/-- The `compressionExts` table (algorithm ↦ extension). -/
def compressionExts : List (GoStr × GoStr) :=
  [("none".toList, "".toList), ("gzip".toList, ".gz".toList), ("bzip2".toList, ".bz2".toList),
   ("lz4".toList, ".lz4".toList), ("zstd".toList, ".zst".toList)]

/-- `GetCompressionExt(algorithm)`: table lookup, `""` when absent. -/
def GetCompressionExt (algorithm : GoStr) : GoStr :=
  match compressionExts.find? (fun p => p.1 == algorithm) with
  | some p => p.2
  | none => []

/-- `GetCompressionAlgorithmFromExt(filename)`: Go ranges over the extension
map in unspecified order looking for a matching non-empty suffix; since the
four non-empty suffixes end in pairwise distinct characters, at most one can
match, so the fixed check order below is faithful for every input. -/
def GetCompressionAlgorithmFromExt (filename : GoStr) : GoStr :=
  if List.isSuffixOf ".gz".toList filename then "gzip".toList
  else if List.isSuffixOf ".bz2".toList filename then "bzip2".toList
  else if List.isSuffixOf ".lz4".toList filename then "lz4".toList
  else if List.isSuffixOf ".zst".toList filename then "zstd".toList
  else "none".toList

/-- `IsCompressed(filename)`. -/
def IsCompressed (filename : GoStr) : Bool :=
  !(GetCompressionAlgorithmFromExt filename == "none".toList)

/-- `ResolveCompressedFilename(filename)`: already-compressed names resolve to
themselves; `.db` names expand to the four compressed variants in fixed
preference order (`zstd` — the default algorithm — first) followed by the
uncompressed name; anything else passes through. -/
def ResolveCompressedFilename (filename : GoStr) : List GoStr :=
  if IsCompressed filename then [filename]
  else if List.isSuffixOf ".db".toList filename then
    let candidates := (["zstd".toList, "gzip".toList, "lz4".toList, "bzip2".toList] :
        List GoStr).foldl
      (fun acc alg =>
        let ext := GetCompressionExt alg
        if ext.isEmpty then acc else acc ++ [filename ++ ext]) []
    candidates ++ [filename]
  else [filename]

/-- The candidate-probing loop of `Client.ResolveCompressedKey`, over an
abstract existence check (`Client.Exists` returns Go's `(bool, error)`).
An error aborts with a wrapped message; the first existing candidate wins;
exhaustion yields `(key, false, nil)`. -/
def resolveProbe (exist : GoStr → Bool × GoError) (key : GoStr) :
    List GoStr → GoStr × Bool × GoError
  | [] => (key, false, none)
  | candidate :: rest =>
    match exist candidate with
    | (_, some e) =>
      ([], false,
        some ("failed to check existence of ".toList ++ candidate ++ ": ".toList ++ e))
    | (true, none) => (candidate, true, none)
    | (false, none) => resolveProbe exist key rest

/-- `Client.ResolveCompressedKey(ctx, key)` (the `ResolveCandidate` of the
spec), with the store's `Exists` supplied as a function. -/
def ResolveCompressedKey (exist : GoStr → Bool × GoError) (key : GoStr) :
    GoStr × Bool × GoError :=
  resolveProbe exist key (ResolveCompressedFilename key)

/-- The resolution and error-construction step of `downloadSnapshot`
(restore command, lines 113–120): a resolver error is wrapped; an unresolved
key becomes the not-found error naming the originally requested key; success
yields the resolved key. -/
def downloadSnapshotResolve (exist : GoStr → Bool × GoError) (s3Key : GoStr) :
    Except GoStr GoStr :=
  match ResolveCompressedKey exist s3Key with
  | (_, _, some e) => .error ("failed to resolve compressed snapshot: ".toList ++ e)
  | (resolvedKey, found, none) =>
    if found then .ok resolvedKey
    else
      .error ("snapshot not found in S3: ".toList ++ s3Key ++
        " (checked compressed and uncompressed versions)".toList)

/-! ## The sort permutes its input

Every mutation of `sort.Slice`'s algorithm is a swap of two positions, so the
post-call slice is a permutation of the input — for any fuel value.  This is
the backbone of the frame result (C10) and lets facts about the sorted slice
transfer to the caller's records. -/

theorem cons_set_perm (l : List α) (k : Nat) (hk : k < l.length) (v : α) :
    (l[k] :: l.set k v).Perm (v :: l) := by
  induction l generalizing k with
  | nil => simp at hk
  | cons a t ih =>
    cases k with
    | zero => simpa using List.Perm.swap v a t
    | succ k =>
      have hk' : k < t.length := by simpa using hk
      have e : (a :: t)[k + 1] :: (a :: t).set (k + 1) v = t[k] :: a :: t.set k v := by simp
      rw [e]
      exact ((List.Perm.swap a t[k] (t.set k v)).trans ((ih k hk').cons a)).trans
        (List.Perm.swap v a t)

theorem set_set_perm (l : List α) (i j : Nat) (hi : i < l.length) (hj : j < l.length) :
    ((l.set i l[j]).set j l[i]).Perm l := by
  induction l generalizing i j with
  | nil => simp at hi
  | cons a t ih =>
    cases i with
    | zero =>
      cases j with
      | zero =>
        simp only [List.getElem_cons_zero, List.set_cons_zero]
        exact List.Perm.refl _
      | succ j =>
        have hj' : j < t.length := by simpa using hj
        simp only [List.getElem_cons_zero, List.getElem_cons_succ, List.set_cons_zero,
          List.set_cons_succ]
        exact cons_set_perm t j hj' a
    | succ i =>
      have hi' : i < t.length := by simpa using hi
      cases j with
      | zero =>
        simp only [List.getElem_cons_zero, List.getElem_cons_succ, List.set_cons_zero,
          List.set_cons_succ]
        exact cons_set_perm t i hi' a
      | succ j =>
        have hj' : j < t.length := by simpa using hj
        simp only [List.getElem_cons_succ, List.set_cons_succ]
        exact (ih i j hi' hj').cons a

theorem swp_toList_perm (arr : Array α) (i j : Nat) : (swp arr i j).toList.Perm arr.toList := by
  unfold swp
  split
  · rename_i h
    have hi : i < arr.toList.length := by simpa [Array.length_toList] using h.1
    have hj : j < arr.toList.length := by simpa [Array.length_toList] using h.2
    rw [Array.toList_swap]
    simp only [Array.get_eq_getElem, Array.getElem_eq_getElem_toList h.1,
      Array.getElem_eq_getElem_toList h.2]
    exact set_set_perm arr.toList i j hi hj
  · exact List.Perm.refl _

theorem insSortInner_perm [Inhabited α] (lt : α → α → Bool) :
    ∀ (fuel : Nat) (arr : Array α) (a j : Nat),
      (insSortInner lt fuel arr a j).toList.Perm arr.toList
  | 0, _, _, _ => List.Perm.refl _
  | fuel + 1, arr, a, j => by
    unfold insSortInner
    split
    · exact (insSortInner_perm lt fuel _ _ _).trans (swp_toList_perm _ _ _)
    · exact List.Perm.refl _

theorem insSortOuter_perm [Inhabited α] (lt : α → α → Bool) :
    ∀ (fuel : Nat) (arr : Array α) (a b i : Nat),
      (insSortOuter lt fuel arr a b i).toList.Perm arr.toList
  | 0, _, _, _, _ => List.Perm.refl _
  | fuel + 1, arr, a, b, i => by
    unfold insSortOuter
    split
    · exact (insSortOuter_perm lt fuel _ _ _ _).trans (insSortInner_perm lt i arr a i)
    · exact List.Perm.refl _

theorem insertionSortGo_perm [Inhabited α] (lt : α → α → Bool) (arr : Array α) (a b : Nat) :
    (insertionSortGo lt arr a b).toList.Perm arr.toList :=
  insSortOuter_perm lt (b + 1) arr a b (a + 1)

theorem siftDownGo_perm [Inhabited α] (lt : α → α → Bool) :
    ∀ (fuel : Nat) (arr : Array α) (hi first root : Nat),
      (siftDownGo lt fuel arr hi first root).toList.Perm arr.toList
  | 0, _, _, _, _ => List.Perm.refl _
  | fuel + 1, arr, hi, first, root => by
    unfold siftDownGo
    dsimp only
    repeat' split
    all_goals
      first
      | exact (siftDownGo_perm lt fuel _ _ _ _).trans (swp_toList_perm _ _ _)
      | exact List.Perm.refl _

theorem heapBuild_perm [Inhabited α] (lt : α → α → Bool) :
    ∀ (k : Nat) (arr : Array α) (first hi : Nat),
      (heapBuild lt k arr first hi).toList.Perm arr.toList
  | 0, _, _, _ => List.Perm.refl _
  | k + 1, arr, first, hi =>
    (heapBuild_perm lt k _ _ _).trans (siftDownGo_perm lt hi arr hi first k)

theorem heapPop_perm [Inhabited α] (lt : α → α → Bool) :
    ∀ (k : Nat) (arr : Array α) (first : Nat), (heapPop lt k arr first).toList.Perm arr.toList
  | 0, _, _ => List.Perm.refl _
  | k + 1, arr, first =>
    (heapPop_perm lt k _ _).trans
      ((siftDownGo_perm lt (k + 1) _ k first 0).trans (swp_toList_perm arr first (first + k)))

theorem heapSortGo_perm [Inhabited α] (lt : α → α → Bool) (arr : Array α) (a b : Nat) :
    (heapSortGo lt arr a b).toList.Perm arr.toList :=
  (heapPop_perm lt (b - a) _ a).trans (heapBuild_perm lt ((b - a - 1) / 2 + 1) arr a (b - a))

theorem reverseRangeGo_perm :
    ∀ (fuel : Nat) (arr : Array α) (i j : Nat),
      (reverseRangeGo fuel arr i j).toList.Perm arr.toList
  | 0, _, _, _ => List.Perm.refl _
  | fuel + 1, arr, i, j => by
    unfold reverseRangeGo
    split
    · exact (reverseRangeGo_perm fuel _ _ _).trans (swp_toList_perm _ _ _)
    · exact List.Perm.refl _

theorem breakPatternsStep_perm (st : Array α × Nat) (a length modulus idx : Nat) :
    (breakPatternsStep st a length modulus idx).1.toList.Perm st.1.toList := by
  unfold breakPatternsStep
  exact swp_toList_perm _ _ _

theorem breakPatternsGo_perm (arr : Array α) (a b : Nat) :
    (breakPatternsGo arr a b).toList.Perm arr.toList := by
  unfold breakPatternsGo
  dsimp only
  split
  · exact (breakPatternsStep_perm _ _ _ _ _).trans
      ((breakPatternsStep_perm _ _ _ _ _).trans (breakPatternsStep_perm _ _ _ _ _))
  · exact List.Perm.refl _

theorem shiftLeftLoop_perm [Inhabited α] (lt : α → α → Bool) :
    ∀ (fuel : Nat) (arr : Array α) (j : Nat), (shiftLeftLoop lt fuel arr j).toList.Perm arr.toList
  | 0, _, _ => List.Perm.refl _
  | fuel + 1, arr, j => by
    unfold shiftLeftLoop
    split
    · exact (shiftLeftLoop_perm lt fuel _ _).trans (swp_toList_perm _ _ _)
    · exact List.Perm.refl _

theorem shiftRightLoop_perm [Inhabited α] (lt : α → α → Bool) :
    ∀ (fuel : Nat) (arr : Array α) (b j : Nat),
      (shiftRightLoop lt fuel arr b j).toList.Perm arr.toList
  | 0, _, _, _ => List.Perm.refl _
  | fuel + 1, arr, b, j => by
    unfold shiftRightLoop
    split
    · exact (shiftRightLoop_perm lt fuel _ _ _).trans (swp_toList_perm _ _ _)
    · exact List.Perm.refl _

theorem maybeInsSortSteps_perm [Inhabited α] (lt : α → α → Bool) :
    ∀ (steps : Nat) (arr : Array α) (a b i : Nat),
      (maybeInsSortSteps lt steps arr a b i).1.toList.Perm arr.toList
  | 0, _, _, _, _ => List.Perm.refl _
  | steps + 1, arr, a, b, i => by
    unfold maybeInsSortSteps
    dsimp only
    split
    · exact List.Perm.refl _
    · split
      · exact List.Perm.refl _
      · refine (maybeInsSortSteps_perm lt steps _ _ _ _).trans ?_
        repeat' split
        all_goals
          first
          | exact (shiftRightLoop_perm lt b _ b _).trans
              ((shiftLeftLoop_perm lt _ _ _).trans (swp_toList_perm _ _ _))
          | exact (shiftRightLoop_perm lt b _ b _).trans (swp_toList_perm _ _ _)
          | exact (shiftLeftLoop_perm lt _ _ _).trans (swp_toList_perm _ _ _)
          | exact swp_toList_perm _ _ _

theorem maybeInsSortGo_perm [Inhabited α] (lt : α → α → Bool) (arr : Array α) (a b : Nat) :
    (maybeInsSortGo lt arr a b).1.toList.Perm arr.toList :=
  maybeInsSortSteps_perm lt 5 arr a b (a + 1)

theorem partitionLoop_perm [Inhabited α] (lt : α → α → Bool) (p : Nat) :
    ∀ (fuel : Nat) (arr : Array α) (i j : Nat),
      (partitionLoop lt p fuel arr i j).1.toList.Perm arr.toList
  | 0, _, _, _ => List.Perm.refl _
  | fuel + 1, arr, i, j => by
    unfold partitionLoop
    dsimp only
    split
    · exact List.Perm.refl _
    · exact (partitionLoop_perm lt p fuel _ _ _).trans (swp_toList_perm _ _ _)

theorem partitionGo_perm [Inhabited α] (lt : α → α → Bool) (arr : Array α) (a b pivot : Nat) :
    (partitionGo lt arr a b pivot).1.toList.Perm arr.toList := by
  unfold partitionGo
  dsimp only
  split
  · exact (swp_toList_perm _ _ _).trans (swp_toList_perm _ _ _)
  · exact (swp_toList_perm _ _ _).trans
      ((partitionLoop_perm lt a (b + 1) _ _ _).trans
        ((swp_toList_perm _ _ _).trans (swp_toList_perm _ _ _)))

theorem partitionEqLoop_perm [Inhabited α] (lt : α → α → Bool) (p : Nat) :
    ∀ (fuel : Nat) (arr : Array α) (i j : Nat),
      (partitionEqLoop lt p fuel arr i j).1.toList.Perm arr.toList
  | 0, _, _, _ => List.Perm.refl _
  | fuel + 1, arr, i, j => by
    unfold partitionEqLoop
    dsimp only
    split
    · exact List.Perm.refl _
    · exact (partitionEqLoop_perm lt p fuel _ _ _).trans (swp_toList_perm _ _ _)

theorem partitionEqualGo_perm [Inhabited α] (lt : α → α → Bool) (arr : Array α)
    (a b pivot : Nat) : (partitionEqualGo lt arr a b pivot).1.toList.Perm arr.toList :=
  (partitionEqLoop_perm lt a (b + 1) _ _ _).trans (swp_toList_perm arr a pivot)

theorem pdqPrep_perm [Inhabited α] (lt : α → α → Bool) (arr : Array α) (a b limit : Nat)
    (wb wp : Bool) : (pdqPrep lt arr a b limit wb wp).1.toList.Perm arr.toList := by
  unfold pdqPrep
  dsimp only
  repeat' split
  all_goals
    first
    | exact (maybeInsSortGo_perm lt _ a b).trans
        ((reverseRangeGo_perm b _ a (b - 1)).trans (breakPatternsGo_perm arr a b))
    | exact (maybeInsSortGo_perm lt _ a b).trans (reverseRangeGo_perm b _ a (b - 1))
    | exact (maybeInsSortGo_perm lt _ a b).trans (breakPatternsGo_perm arr a b)
    | exact maybeInsSortGo_perm lt _ a b
    | exact (reverseRangeGo_perm b _ a (b - 1)).trans (breakPatternsGo_perm arr a b)
    | exact reverseRangeGo_perm b _ a (b - 1)
    | exact breakPatternsGo_perm arr a b
    | exact List.Perm.refl _

theorem pdqsortGo_perm [Inhabited α] (lt : α → α → Bool) :
    ∀ (fuel : Nat) (arr : Array α) (a b limit : Nat) (wb wp : Bool),
      (pdqsortGo lt fuel arr a b limit wb wp).toList.Perm arr.toList
  | 0, _, _, _, _, _, _ => List.Perm.refl _
  | fuel + 1, arr, a, b, limit, wb, wp => by
    unfold pdqsortGo
    dsimp only
    split
    · exact insertionSortGo_perm lt arr a b
    · split
      · exact heapSortGo_perm lt arr a b
      · have hp := pdqPrep_perm lt arr a b limit wb wp
        split
        · exact hp
        · split
          · exact (pdqsortGo_perm lt fuel _ _ _ _ _ _).trans
              ((partitionEqualGo_perm lt _ _ _ _).trans hp)
          · split
            · exact (pdqsortGo_perm lt fuel _ _ _ _ _ _).trans
                ((pdqsortGo_perm lt fuel _ _ _ _ _ _).trans
                  ((partitionGo_perm lt _ _ _ _).trans hp))
            · exact (pdqsortGo_perm lt fuel _ _ _ _ _ _).trans
                ((pdqsortGo_perm lt fuel _ _ _ _ _ _).trans
                  ((partitionGo_perm lt _ _ _ _).trans hp))

theorem sortSliceGo_perm [Inhabited α] (lt : α → α → Bool) (xs : Array α) :
    (sortSliceGo lt xs).toList.Perm xs.toList :=
  pdqsortGo_perm lt _ xs 0 xs.size (bitsLen xs.size) true true

theorem sortedList_perm [Inhabited α] (lt : α → α → Bool) (l : List α) :
    ((sortSliceGo lt l.toArray).toList).Perm l := by
  simpa using sortSliceGo_perm lt l.toArray

/-- One `pdqsort` iteration on a short segment is plain insertion sort. -/
theorem pdqsortGo_step_ins [Inhabited α] (lt : α → α → Bool) (fuel : Nat) (arr : Array α)
    (a b limit : Nat) (wb wp : Bool) (hf : fuel ≠ 0) (h12 : b - a ≤ 12) :
    pdqsortGo lt fuel arr a b limit wb wp = insertionSortGo lt arr a b := by
  obtain ⟨f, rfl⟩ : ∃ f, fuel = f + 1 := ⟨fuel - 1, by omega⟩
  simp only [pdqsortGo]
  rw [if_pos h12]

/-- One `pdqsort` iteration in the common case: no early return from the
partial insertion sort, no `partitionEqual` shortcut, left side shorter —
recurse on the left segment, continue on the right. -/
theorem pdqsortGo_step_part [Inhabited α] (lt : α → α → Bool) (fuel : Nat)
    (arr arr3 arr4 : Array α) (a b limit pivot limit1 mid : Nat) (wb wp ap wb2 : Bool)
    (hf : fuel ≠ 0) (h12 : ¬ b - a ≤ 12) (hlim : ¬ limit = 0)
    (hprep : pdqPrep lt arr a b limit wb wp = (arr3, false, pivot, limit1))
    (hskip : ¬ (0 < a ∧ ¬ lessAt lt arr3 (a - 1) pivot = true))
    (hpart : partitionGo lt arr3 a b pivot = (arr4, mid, ap))
    (hlr : mid - a < b - mid)
    (hbal : decide ((b - a) / 8 ≤ min (mid - a) (b - mid)) = wb2) :
    pdqsortGo lt fuel arr a b limit wb wp
      = pdqsortGo lt (fuel - 1) (pdqsortGo lt (fuel - 1) arr4 a mid limit1 true true)
          (mid + 1) b limit1 wb2 ap := by
  obtain ⟨f, rfl⟩ : ∃ f, fuel = f + 1 := ⟨fuel - 1, by omega⟩
  simp only [pdqsortGo, Nat.add_sub_cancel]
  rw [if_neg h12, if_neg hlim, hprep]
  dsimp only
  rw [if_neg (by simp), if_neg hskip, hpart]
  dsimp only
  rw [hbal, if_pos hlr]

/-! ## Characterising the verdict -/

theorem lookupKeep_iff (l : List GoStr) (n : GoStr) : lookupKeep l n = true ↔ n ∈ l := by
  simp [lookupKeep, List.contains, List.elem_iff]

theorem mem_if_singleton {c : Prop} [Decidable c] {x n : GoStr} :
    n ∈ (if c then [x] else ([] : List GoStr)) ↔ c ∧ n = x := by
  split
  · simp_all
  · simp_all

/-- The age-window disjunction tested by the loop body of
`determineSnapshotsToKeep` (grouped exactly as in the code). -/
def InWindow (m : RetentionPolicy) (now : Int) (s : SnapshotFile) : Prop :=
  (0 < m.KeepLastHours ∧ now - s.ModTime ≤ m.KeepLastHours * goHour) ∨
  (0 < m.KeepLastDays ∧ now - s.ModTime ≤ m.KeepLastDays * 24 * goHour) ∨
  (0 < m.KeepLastWeeks ∧ now - s.ModTime ≤ m.KeepLastWeeks * 7 * 24 * goHour) ∨
  (0 < m.KeepLastMonths ∧ now - s.ModTime ≤ m.KeepLastMonths * 30 * 24 * goHour) ∨
  (0 < m.KeepLastYears ∧ now - s.ModTime ≤ m.KeepLastYears * 365 * 24 * goHour)

theorem mem_windowMarks (m : RetentionPolicy) (now : Int) (s : SnapshotFile) (n : GoStr) :
    n ∈ windowMarks m now s ↔ n = s.Name ∧ InWindow m now s := by
  unfold windowMarks InWindow
  simp only [List.mem_append, mem_if_singleton, Bool.and_eq_true, intLtb_iff, intLeb_iff]
  tauto

theorem mem_foldWindows (m : RetentionPolicy) (now : Int) :
    ∀ (l : List SnapshotFile) (init : List GoStr) (n : GoStr),
      n ∈ l.foldl (fun acc s => acc ++ windowMarks m now s) init ↔
        n ∈ init ∨ ∃ s ∈ l, n = s.Name ∧ InWindow m now s
  | [], init, n => by simp
  | s :: l, init, n => by
    rw [List.foldl_cons, mem_foldWindows m now l _ n]
    simp only [List.mem_append, mem_windowMarks, List.mem_cons]
    constructor
    · rintro ((h | h) | ⟨x, hx, hn⟩)
      · exact Or.inl h
      · exact Or.inr ⟨s, Or.inl rfl, h⟩
      · exact Or.inr ⟨x, Or.inr hx, hn⟩
    · rintro (h | ⟨x, (rfl | hx), hn⟩)
      · exact Or.inl (Or.inl h)
      · exact Or.inl (Or.inr hn)
      · exact Or.inr ⟨x, hx, hn⟩

theorem determine_fst (m : RetentionPolicy) (now : Int) (snapshots : List SnapshotFile) :
    (determineSnapshotsToKeep m now snapshots).1 =
      (sortSliceGo snapLess snapshots.toArray).toList := rfl

theorem determine_fst_perm (m : RetentionPolicy) (now : Int) (snapshots : List SnapshotFile) :
    ((determineSnapshotsToKeep m now snapshots).1).Perm snapshots := by
  rw [determine_fst]
  exact sortedList_perm snapLess snapshots

/-- A name is marked keep exactly when it names one of the first `KeepLast`
records of the sorted slice (with `KeepLast > 0`) or some record of the sorted
slice sits inside an enabled window. -/
theorem determine_keep_iff (m : RetentionPolicy) (now : Int) (snapshots : List SnapshotFile)
    (n : GoStr) :
    lookupKeep (determineSnapshotsToKeep m now snapshots).2 n = true ↔
      (0 < m.KeepLast ∧
        n ∈ (((determineSnapshotsToKeep m now snapshots).1.take m.KeepLast.toNat).map
          (fun s => s.Name))) ∨
      ∃ s ∈ (determineSnapshotsToKeep m now snapshots).1, n = s.Name ∧ InWindow m now s := by
  unfold determineSnapshotsToKeep
  dsimp only
  rw [lookupKeep_iff, mem_foldWindows]
  by_cases h : 0 < m.KeepLast
  · simp [h, intLtb_iff]
  · simp [h, intLtb_iff]

/-- The verdict component of `determineSnapshotsToKeep`, spelled out. -/
theorem determine_snd (m : RetentionPolicy) (now : Int) (snapshots : List SnapshotFile) :
    (determineSnapshotsToKeep m now snapshots).2 =
      ((sortSliceGo snapLess snapshots.toArray).toList).foldl
        (fun acc s => acc ++ windowMarks m now s)
        (if intLtb 0 m.KeepLast then
          (((sortSliceGo snapLess snapshots.toArray).toList).take m.KeepLast.toNat).map
            (fun s => s.Name)
        else []) := rfl

/-! ## Characterising the reconciliation merge -/

theorem mapGet_mapPut (k k' : GoStr) (v : SnapshotFile) :
    ∀ (mp : List (GoStr × SnapshotFile)),
      mapGet (mapPut mp k v) k' = if k' = k then some v else mapGet mp k'
  | [] => by
    simp only [mapPut, mapGet]
    by_cases h : k' = k
    · simp [h]
    · simp [h, Ne.symm h]
  | p :: mp => by
    simp only [mapPut]
    split
    · rename_i h
      subst h
      simp only [mapGet]
      by_cases hk : k' = p.1
      · simp [hk]
      · simp [hk, Ne.symm hk]
    · rename_i h
      simp only [mapGet, mapGet_mapPut k k' v mp]
      by_cases h1 : p.1 = k'
      · have hk : ¬ k' = k := fun e => h (h1.trans e)
        simp [h1, hk]
      · simp [h1]

theorem mapGet_mem (n : GoStr) (v : SnapshotFile) :
    ∀ (mp : List (GoStr × SnapshotFile)), mapGet mp n = some v → v ∈ mp.map (fun p => p.2)
  | [] => by simp [mapGet]
  | p :: mp => by
    simp only [mapGet, List.map_cons, List.mem_cons]
    split
    · intro h
      exact Or.inl (Option.some.inj h).symm
    · intro h
      exact Or.inr (mapGet_mem n v mp h)

/-- Seeding the map from the local listing is last-write-wins per name. -/
theorem mapGet_seed (n : GoStr) :
    ∀ (locals : List SnapshotFile) (mp : List (GoStr × SnapshotFile)),
      mapGet (locals.foldl (fun mp s => mapPut mp s.Name s) mp) n
        = Option.or (locals.reverse.find? (fun s => s.Name == n)) (mapGet mp n)
  | [], mp => by simp
  | s :: locals, mp => by
    rw [List.foldl_cons, mapGet_seed n locals (mapPut mp s.Name s), List.reverse_cons,
      List.find?_append, Option.or_assoc]
    congr 1
    rw [mapGet_mapPut]
    by_cases h : s.Name = n
    · rw [List.find?_cons_of_pos _ (by simp [h]), if_pos h.symm]
      rfl
    · rw [List.find?_cons_of_neg _ (by simp [h]), if_neg (Ne.symm h)]
      rfl

/-- One step of the remote fold, viewed at a fixed name. -/
def mergeStep (cur : Option SnapshotFile) (r : SnapshotFile) : Option SnapshotFile :=
  match cur with
  | some existing => if existing.ModTime < r.ModTime then some r else some existing
  | none => some r

/-- Folding the remote listing into the map updates each name by `mergeStep`
over the remote records carrying that name. -/
theorem mapGet_s3fold (n : GoStr) :
    ∀ (rs : List SnapshotFile) (mp : List (GoStr × SnapshotFile)),
      mapGet (rs.foldl (fun mp s =>
          match mapGet mp s.Name with
          | some existing => if existing.ModTime < s.ModTime then mapPut mp s.Name s else mp
          | none => mapPut mp s.Name s) mp) n
        = (rs.filter (fun s => s.Name == n)).foldl mergeStep (mapGet mp n)
  | [], _ => rfl
  | r :: rs, mp => by
    rw [List.foldl_cons, mapGet_s3fold n rs _, List.filter_cons]
    by_cases h : r.Name = n
    · have hb : (r.Name == n) = true := by simp [h]
      rw [hb, if_pos rfl, List.foldl_cons]
      congr 1
      have hm' : mapGet mp n = mapGet mp r.Name := by rw [h]
      cases hm : mapGet mp r.Name with
      | none =>
        simp only [hm]
        rw [mapGet_mapPut, if_pos h.symm, hm' , hm]
        rfl
      | some existing =>
        by_cases ht : existing.ModTime < r.ModTime
        · simp only [hm, if_pos ht]
          rw [mapGet_mapPut, if_pos h.symm, hm', hm]
          simp [mergeStep, ht]
        · simp only [hm, if_neg ht]
          rw [hm', hm]
          simp [mergeStep, ht]
    · have hb : (r.Name == n) = false := by simp [h]
      rw [hb, if_neg (by simp)]
      congr 1
      cases hm : mapGet mp r.Name with
      | none =>
        simp only [hm]
        rw [mapGet_mapPut, if_neg (Ne.symm h)]
      | some existing =>
        by_cases ht : existing.ModTime < r.ModTime
        · simp only [hm, if_pos ht]
          rw [mapGet_mapPut, if_neg (Ne.symm h)]
        · simp only [hm, if_neg ht]

/-- In a listing whose names are unique, `find?` by name returns the member
carrying that name. -/
theorem find_by_name (n : GoStr) :
    ∀ (l : List SnapshotFile), (l.map (fun s => s.Name)).Nodup →
      ∀ x ∈ l, x.Name = n → l.find? (fun s => s.Name == n) = some x
  | [], _, x, hx, _ => absurd hx (List.not_mem_nil x)
  | a :: t, hnd, x, hx, hn => by
    simp only [List.map_cons, List.nodup_cons] at hnd
    rcases List.mem_cons.mp hx with rfl | hx'
    · simp [List.find?, hn]
    · have hne : (a.Name == n) = false := by
        simp only [beq_eq_false_iff_ne, ne_eq]
        intro he
        apply hnd.1
        rw [he, ← hn]
        exact List.mem_map_of_mem (fun s => s.Name) hx'
      rw [List.find?_cons_of_neg _ (by simp [hne])]
      exact find_by_name n t hnd.2 x hx' hn

/-- In a listing whose names are unique, filtering by a present name yields
exactly that member. -/
theorem filter_by_name (n : GoStr) :
    ∀ (l : List SnapshotFile), (l.map (fun s => s.Name)).Nodup →
      ∀ x ∈ l, x.Name = n → l.filter (fun s => s.Name == n) = [x]
  | [], _, x, hx, _ => absurd hx (List.not_mem_nil x)
  | a :: t, hnd, x, hx, hn => by
    simp only [List.map_cons, List.nodup_cons] at hnd
    rcases List.mem_cons.mp hx with rfl | hx'
    · have ht : t.filter (fun s => s.Name == n) = [] := by
        rw [List.filter_eq_nil_iff]
        intro b hb
        simp only [beq_iff_eq]
        intro he
        apply hnd.1
        rw [hn, ← he]
        exact List.mem_map_of_mem (fun s => s.Name) hb
      simp [List.filter_cons, hn, ht]
    · have hne : (a.Name == n) = false := by
        simp only [beq_eq_false_iff_ne, ne_eq]
        intro he
        apply hnd.1
        rw [he, ← hn]
        exact List.mem_map_of_mem (fun s => s.Name) hx'
      rw [List.filter_cons, hne, if_neg (by simp)]
      exact filter_by_name n t hnd.2 x hx' hn

/-! ## Claim theorems: the retention evaluator -/

/-- Claim C1: for every non-empty record collection, when every policy
threshold is zero or negative (`KeepLast ≤ 0` and every `KeepLastX ≤ 0`), the
evaluator marks no name as keep — the verdict is delete for every record. -/
theorem C1_all_disabled_policy_purges_all (m : RetentionPolicy) (now : Int)
    (snapshots : List SnapshotFile)
    (hLast : m.KeepLast ≤ 0) (hH : m.KeepLastHours ≤ 0) (hD : m.KeepLastDays ≤ 0)
    (hW : m.KeepLastWeeks ≤ 0) (hMo : m.KeepLastMonths ≤ 0) (hY : m.KeepLastYears ≤ 0)
    (hne : snapshots ≠ []) :
    ∀ s ∈ snapshots, lookupKeep (GetRetentionStatus m now snapshots) s.Name = false := by
  intro s _
  by_contra hcon
  rw [Bool.not_eq_false, GetRetentionStatus, determine_keep_iff] at hcon
  rcases hcon with ⟨hk, _⟩ | ⟨x, _, _, hw⟩
  · omega
  · unfold InWindow at hw
    rcases hw with ⟨h1, _⟩ | ⟨h1, _⟩ | ⟨h1, _⟩ | ⟨h1, _⟩ | ⟨h1, _⟩ <;> omega

/-- Witness for C1 at a concrete all-zero policy and a one-record listing. -/
theorem C1_all_disabled_policy_purges_all_witness :
    lookupKeep (GetRetentionStatus ⟨0, 0, 0, 0, 0, 0, false, 0⟩ 0
      [⟨['a'], ['a'], 0, 0, false⟩]) ['a'] = false :=
  C1_all_disabled_policy_purges_all ⟨0, 0, 0, 0, 0, 0, false, 0⟩ 0 [⟨['a'], ['a'], 0, 0, false⟩]
    (by decide) (by decide) (by decide) (by decide) (by decide) (by decide) (by decide)
    ⟨['a'], ['a'], 0, 0, false⟩ (by decide)

/-- Claim C2: a record's final verdict is keep iff its name is among the first
`keepLastCount` records of the modifiedAt-descending order the evaluator
produces (when `keepLastCount > 0`), or its age `now - modifiedAt` is at most
`u` times the unit duration for some enabled window `u > 0`, with the fixed
units hour, day = 24 h, week = 7·24 h, month = 30·24 h, year = 365·24 h; the
count rule and the window rules combine by logical OR. -/
theorem C2_keep_iff_count_or_window (m : RetentionPolicy) (now : Int)
    (snapshots : List SnapshotFile) (n : GoStr) :
    lookupKeep ((determineSnapshotsToKeep m now snapshots).2) n = true ↔
      (0 < m.KeepLast ∧
        n ∈ (((determineSnapshotsToKeep m now snapshots).1.take m.KeepLast.toNat).map
          (fun s => s.Name))) ∨
      ∃ s ∈ snapshots, n = s.Name ∧
        ((0 < m.KeepLastHours ∧ now - s.ModTime ≤ m.KeepLastHours * goHour) ∨
         (0 < m.KeepLastDays ∧ now - s.ModTime ≤ m.KeepLastDays * (24 * goHour)) ∨
         (0 < m.KeepLastWeeks ∧ now - s.ModTime ≤ m.KeepLastWeeks * (7 * (24 * goHour))) ∨
         (0 < m.KeepLastMonths ∧ now - s.ModTime ≤ m.KeepLastMonths * (30 * (24 * goHour))) ∨
         (0 < m.KeepLastYears ∧ now - s.ModTime ≤ m.KeepLastYears * (365 * (24 * goHour)))) := by
  rw [determine_keep_iff]
  refine or_congr Iff.rfl ?_
  have hperm := determine_fst_perm m now snapshots
  constructor
  · rintro ⟨s, hs, hn, hw⟩
    refine ⟨s, hperm.mem_iff.mp hs, hn, ?_⟩
    unfold InWindow at hw
    simpa only [mul_assoc] using hw
  · rintro ⟨s, hs, hn, hw⟩
    refine ⟨s, hperm.mem_iff.mpr hs, hn, ?_⟩
    unfold InWindow
    simpa only [mul_assoc] using hw

/-- Claim C8: enlarging `KeepLast` from `k` to `k + 1` with all other policy
fields unchanged never demotes a kept name: the keep set is monotone. -/
theorem C8_keepLast_monotone (m : RetentionPolicy) (now : Int) (snapshots : List SnapshotFile)
    (n : GoStr)
    (h : lookupKeep (GetRetentionStatus m now snapshots) n = true) :
    lookupKeep (GetRetentionStatus { m with KeepLast := m.KeepLast + 1 } now snapshots) n
      = true := by
  unfold GetRetentionStatus at h ⊢
  rw [determine_keep_iff] at h ⊢
  rw [determine_fst] at h ⊢
  rcases h with ⟨hk, hmem⟩ | h
  · left
    refine ⟨show 0 < m.KeepLast + 1 by omega, ?_⟩
    have hkk : m.KeepLast.toNat ≤ (m.KeepLast + 1).toNat := Int.toNat_le_toNat (by omega)
    have hsub : ((sortSliceGo snapLess snapshots.toArray).toList.take m.KeepLast.toNat) ⊆
        ((sortSliceGo snapLess snapshots.toArray).toList.take (m.KeepLast + 1).toNat) := by
      have e : (sortSliceGo snapLess snapshots.toArray).toList.take m.KeepLast.toNat =
          ((sortSliceGo snapLess snapshots.toArray).toList.take
            (m.KeepLast + 1).toNat).take m.KeepLast.toNat := by
        rw [List.take_take, min_eq_left hkk]
      intro x hx
      rw [e] at hx
      exact List.take_subset _ _ hx
    exact List.map_subset _ hsub hmem
  · exact Or.inr h

/-- Witness for C8: the newest of two records is kept at `KeepLast = 1` and
stays kept at `KeepLast = 2`. -/
theorem C8_keepLast_monotone_witness :
    lookupKeep (GetRetentionStatus ⟨1, 0, 0, 0, 0, 0, false, 0⟩ 10
      [⟨['a'], ['a'], 0, 2, false⟩, ⟨['b'], ['b'], 0, 1, false⟩]) ['a'] = true ∧
    lookupKeep (GetRetentionStatus ⟨2, 0, 0, 0, 0, 0, false, 0⟩ 10
      [⟨['a'], ['a'], 0, 2, false⟩, ⟨['b'], ['b'], 0, 1, false⟩]) ['a'] = true :=
  ⟨by decide,
   C8_keepLast_monotone ⟨1, 0, 0, 0, 0, 0, false, 0⟩ 10
     [⟨['a'], ['a'], 0, 2, false⟩, ⟨['b'], ['b'], 0, 1, false⟩] ['a'] (by decide)⟩

/-- Claim C10: every evaluation call hands the caller's slice to
`determineSnapshotsToKeep`, which sorts it in place; the post-call slice
contents (the first component of the model) are a permutation of the input —
so no record field changes, only element order — and the order is in general
not preserved (second conjunct: a two-record example whose order changes). -/
theorem C10_sort_in_place_frame :
    (∀ (m : RetentionPolicy) (now : Int) (snapshots : List SnapshotFile),
        ((determineSnapshotsToKeep m now snapshots).1).Perm snapshots) ∧
      (determineSnapshotsToKeep ⟨0, 0, 0, 0, 0, 0, false, 0⟩ 0
          [⟨['a'], ['a'], 0, 1, false⟩, ⟨['b'], ['b'], 0, 2, false⟩]).1 ≠
        [⟨['a'], ['a'], 0, 1, false⟩, ⟨['b'], ['b'], 0, 2, false⟩] :=
  ⟨fun m now snapshots => determine_fst_perm m now snapshots, by decide⟩

/-- 13 records: one old record `a` followed by twelve records `b c d e f g h
i j k l m` sharing one timestamp.  Input order among the equal-timestamp
records is alphabetical. -/
def tieRecords : List SnapshotFile :=
  [⟨['a'], ['a'], 0, Int.ofNat 0, false⟩, ⟨['b'], ['b'], 0, Int.ofNat 9, false⟩,
   ⟨['c'], ['c'], 0, Int.ofNat 9, false⟩, ⟨['d'], ['d'], 0, Int.ofNat 9, false⟩,
   ⟨['e'], ['e'], 0, Int.ofNat 9, false⟩, ⟨['f'], ['f'], 0, Int.ofNat 9, false⟩,
   ⟨['g'], ['g'], 0, Int.ofNat 9, false⟩, ⟨['h'], ['h'], 0, Int.ofNat 9, false⟩,
   ⟨['i'], ['i'], 0, Int.ofNat 9, false⟩, ⟨['j'], ['j'], 0, Int.ofNat 9, false⟩,
   ⟨['k'], ['k'], 0, Int.ofNat 9, false⟩, ⟨['l'], ['l'], 0, Int.ofNat 9, false⟩,
   ⟨['m'], ['m'], 0, Int.ofNat 9, false⟩]

/-- `KeepLast = 1`, every window disabled. -/
def tiePolicy : RetentionPolicy := ⟨1, 0, 0, 0, 0, 0, false, 0⟩

/-- `tieRecords` after `partition`'s single swap (positions 0 and 6). -/
def tieArrB : Array SnapshotFile :=
  #[⟨['g'], ['g'], 0, Int.ofNat 9, false⟩, ⟨['b'], ['b'], 0, Int.ofNat 9, false⟩,
    ⟨['c'], ['c'], 0, Int.ofNat 9, false⟩, ⟨['d'], ['d'], 0, Int.ofNat 9, false⟩,
    ⟨['e'], ['e'], 0, Int.ofNat 9, false⟩, ⟨['f'], ['f'], 0, Int.ofNat 9, false⟩,
    ⟨['a'], ['a'], 0, Int.ofNat 0, false⟩, ⟨['h'], ['h'], 0, Int.ofNat 9, false⟩,
    ⟨['i'], ['i'], 0, Int.ofNat 9, false⟩, ⟨['j'], ['j'], 0, Int.ofNat 9, false⟩,
    ⟨['k'], ['k'], 0, Int.ofNat 9, false⟩, ⟨['l'], ['l'], 0, Int.ofNat 9, false⟩,
    ⟨['m'], ['m'], 0, Int.ofNat 9, false⟩]

/-- What `sort.Slice` leaves in the slice for `tieRecords`. -/
def tieSorted : Array SnapshotFile :=
  #[⟨['g'], ['g'], 0, Int.ofNat 9, false⟩, ⟨['b'], ['b'], 0, Int.ofNat 9, false⟩,
    ⟨['c'], ['c'], 0, Int.ofNat 9, false⟩, ⟨['d'], ['d'], 0, Int.ofNat 9, false⟩,
    ⟨['e'], ['e'], 0, Int.ofNat 9, false⟩, ⟨['f'], ['f'], 0, Int.ofNat 9, false⟩,
    ⟨['h'], ['h'], 0, Int.ofNat 9, false⟩, ⟨['i'], ['i'], 0, Int.ofNat 9, false⟩,
    ⟨['j'], ['j'], 0, Int.ofNat 9, false⟩, ⟨['k'], ['k'], 0, Int.ofNat 9, false⟩,
    ⟨['l'], ['l'], 0, Int.ofNat 9, false⟩, ⟨['m'], ['m'], 0, Int.ofNat 9, false⟩,
    ⟨['a'], ['a'], 0, Int.ofNat 0, false⟩]

set_option maxRecDepth 100000 in
set_option maxHeartbeats 4000000 in
/-- The sorted slice for `tieRecords`, computed by staging the algorithm:
`pdqsort` chooses pivot 6, `partition` swaps positions 0 and 6 and reports an
already-partitioned split at 0, the empty left segment is trivial, and the
12-element right segment is finished by insertion sort. -/
theorem tieRecords_sorted : sortSliceGo snapLess tieRecords.toArray = tieSorted := by
  have hpp : pdqPrep snapLess tieRecords.toArray 0 13 4 true true
      = (tieRecords.toArray, false, 6, 4) := by decide
  have hpt : partitionGo snapLess tieRecords.toArray 0 13 6 = (tieArrB, 0, true) := by decide
  have hsz : (List.toArray tieRecords).size = 13 := rfl
  have hbl : bitsLen 13 = 4 := by
    unfold bitsLen
    norm_num [Nat.log2]
  unfold sortSliceGo
  rw [hsz, hbl, show 2 * 13 + 2 * 4 + 16 = 50 by norm_num]
  rw [pdqsortGo_step_part snapLess 50 tieRecords.toArray tieRecords.toArray tieArrB 0 13 4 6
    4 0 true true true false (by decide) (by decide) (by decide) hpp (by decide) hpt (by decide)
    (by decide)]
  rw [pdqsortGo_step_ins snapLess (50 - 1) tieArrB 0 0 4 true true (by decide) (by decide)]
  have hin0 : insertionSortGo snapLess tieArrB 0 0 = tieArrB := by decide
  rw [hin0]
  rw [pdqsortGo_step_ins snapLess (50 - 1) tieArrB 1 13 4 false true (by decide) (by decide)]
  decide

set_option maxRecDepth 100000 in
set_option maxHeartbeats 1000000 in
/-- Claim C5 (refuted on the code): the evaluator's sort is Go's `sort.Slice`,
which is not stable.  On `tieRecords` the sorted slice lists the
equal-timestamp records as `g b c d e f h i j k l m` — record `g` overtakes
`b…f` — so ties do *not* keep their input order, and with `KeepLast = 1` the
kept name is `g` where a stable tie-break would keep `b`. -/
theorem C5_sort_unstable_on_ties :
    (((determineSnapshotsToKeep tiePolicy 1000 tieRecords).1.filter
          (fun s => s.ModTime == 9)).map (fun s => s.Name) ≠
        (tieRecords.filter (fun s => s.ModTime == 9)).map (fun s => s.Name)) ∧
    ((determineSnapshotsToKeep tiePolicy 1000 tieRecords).1.filter
          (fun s => s.ModTime == 9)).map (fun s => s.Name) =
        [['g'], ['b'], ['c'], ['d'], ['e'], ['f'], ['h'], ['i'], ['j'], ['k'], ['l'], ['m']] ∧
    (determineSnapshotsToKeep tiePolicy 1000 tieRecords).2 = [['g']] := by
  have h1 : (determineSnapshotsToKeep tiePolicy 1000 tieRecords).1 = tieSorted.toList := by
    rw [determine_fst, tieRecords_sorted]
  have h2 : (determineSnapshotsToKeep tiePolicy 1000 tieRecords).2 = [['g']] := by
    rw [determine_snd, tieRecords_sorted]
    decide
  refine ⟨?_, ?_, h2⟩
  · rw [h1]
    decide
  · rw [h1]
    decide

/-! ## Claim theorems: reconciliation, application, gap finding -/

/-- Claim C3: the merged collection is seeded from the local records keyed by
name; a remote record replaces an already-present same-named record only when
its modifiedAt is strictly more recent (so equal timestamps keep the
local-first record); remote names not yet present are inserted; and every
merged map entry appears in the unified collection. -/
theorem C3_merge_local_seed_strict_remote_replace
    (localSnapshots s3Snapshots : List SnapshotFile) (n : GoStr)
    (hL : (localSnapshots.map (fun s => s.Name)).Nodup)
    (hR : (s3Snapshots.map (fun s => s.Name)).Nodup) :
    (∀ l ∈ localSnapshots, l.Name = n → ∀ r ∈ s3Snapshots, r.Name = n →
      mapGet (unifiedSnapshotMap localSnapshots s3Snapshots) n
        = some (if l.ModTime < r.ModTime then r else l)) ∧
    (∀ l ∈ localSnapshots, l.Name = n → (∀ r ∈ s3Snapshots, r.Name ≠ n) →
      mapGet (unifiedSnapshotMap localSnapshots s3Snapshots) n = some l) ∧
    ((∀ l ∈ localSnapshots, l.Name ≠ n) → ∀ r ∈ s3Snapshots, r.Name = n →
      mapGet (unifiedSnapshotMap localSnapshots s3Snapshots) n = some r) ∧
    ((∀ l ∈ localSnapshots, l.Name ≠ n) → (∀ r ∈ s3Snapshots, r.Name ≠ n) →
      mapGet (unifiedSnapshotMap localSnapshots s3Snapshots) n = none) ∧
    (∀ v, mapGet (unifiedSnapshotMap localSnapshots s3Snapshots) n = some v →
      v ∈ createUnifiedSnapshotList localSnapshots s3Snapshots) := by
  have hmap : mapGet (unifiedSnapshotMap localSnapshots s3Snapshots) n
      = (s3Snapshots.filter (fun s => s.Name == n)).foldl mergeStep
          (Option.or (localSnapshots.reverse.find? (fun s => s.Name == n)) none) := by
    unfold unifiedSnapshotMap
    rw [mapGet_s3fold, mapGet_seed]
    rfl
  have hLrev : (localSnapshots.reverse.map (fun s => s.Name)).Nodup := by
    rw [List.map_reverse, List.nodup_reverse]
    exact hL
  refine ⟨?_, ?_, ?_, ?_, ?_⟩
  · intro l hl hln r hr hrn
    rw [hmap, find_by_name n localSnapshots.reverse hLrev l (List.mem_reverse.mpr hl) hln,
      filter_by_name n s3Snapshots hR r hr hrn]
    show mergeStep (some l) r = _
    unfold mergeStep
    exact (apply_ite some (l.ModTime < r.ModTime) r l).symm
  · intro l hl hln hnone
    rw [hmap, find_by_name n localSnapshots.reverse hLrev l (List.mem_reverse.mpr hl) hln,
      List.filter_eq_nil_iff.mpr (fun r hr => by simp [hnone r hr])]
    rfl
  · intro hnone r hr hrn
    rw [hmap, List.find?_eq_none.mpr (fun x hx => by
        simp [hnone x (List.mem_reverse.mp hx)]),
      filter_by_name n s3Snapshots hR r hr hrn]
    rfl
  · intro hlnone hrnone
    rw [hmap, List.find?_eq_none.mpr (fun x hx => by
        simp [hlnone x (List.mem_reverse.mp hx)]),
      List.filter_eq_nil_iff.mpr (fun r hr => by simp [hrnone r hr])]
    rfl
  · intro v hv
    exact mapGet_mem n v _ hv

/-- Witness for C3: one local and one remote record with the same name and
equal timestamps — the merge keeps the local-first record. -/
theorem C3_merge_local_seed_strict_remote_replace_witness :
    mapGet (unifiedSnapshotMap [⟨['a'], ['a'], 0, 5, false⟩] [⟨['a'], ['r'], 0, 5, true⟩]) ['a']
      = some ⟨['a'], ['a'], 0, 5, false⟩ := by
  have h := (C3_merge_local_seed_strict_remote_replace
      [⟨['a'], ['a'], 0, 5, false⟩] [⟨['a'], ['r'], 0, 5, true⟩] ['a']
      (by decide) (by decide)).1
    ⟨['a'], ['a'], 0, 5, false⟩ (by decide) rfl
    ⟨['a'], ['r'], 0, 5, true⟩ (by decide) rfl
  rw [h, if_neg (by norm_num)]

/-- The deletion loop of `applyRetentionToLocal` / `applyRetentionToS3`
removes exactly the records failing the predicate. -/
theorem applyFold_removed (q : SnapshotFile → Bool) :
    ∀ (l : List SnapshotFile) (k d : Nat) (rm : List SnapshotFile),
      (l.foldl (fun acc s =>
        if q s then (acc.1 + 1, acc.2.1, acc.2.2) else (acc.1, acc.2.1 + 1, acc.2.2 ++ [s]))
        (k, d, rm)).2.2
      = rm ++ l.filter (fun s => !(q s))
  | [], k, d, rm => by simp
  | s :: l, k, d, rm => by
    rw [List.foldl_cons, List.filter_cons]
    by_cases h : q s
    · rw [if_pos h]
      dsimp only
      rw [applyFold_removed q l (k + 1) d rm]
      simp [h]
    · rw [if_neg h]
      dsimp only
      rw [applyFold_removed q l k (d + 1) (rm ++ [s])]
      have hb : (!(q s)) = true := by simp [h]
      rw [hb, if_pos rfl, List.append_assoc]
      rfl

/-- Claim C4: `ApplyUnified` applies the single merged verdict independently
to the original local and remote listings — in each store exactly the records
whose name the verdict marks delete are removed, and a name the verdict keeps
is kept in both stores. -/
theorem C4_unified_verdict_applied_to_both_stores (m : RetentionPolicy) (now : Int)
    (localSnapshots s3Snapshots : List SnapshotFile) :
    ((ApplyUnified m now localSnapshots s3Snapshots).1.2.2
      = localSnapshots.filter (fun s =>
          !(lookupKeep (GetUnifiedRetentionStatus m now localSnapshots s3Snapshots) s.Name))) ∧
    ((ApplyUnified m now localSnapshots s3Snapshots).2.2.2
      = s3Snapshots.filter (fun s =>
          !(lookupKeep (GetUnifiedRetentionStatus m now localSnapshots s3Snapshots) s.Name))) ∧
    (∀ s ∈ localSnapshots,
      (s ∈ (ApplyUnified m now localSnapshots s3Snapshots).1.2.2 ↔
        lookupKeep (GetUnifiedRetentionStatus m now localSnapshots s3Snapshots) s.Name
          = false)) ∧
    (∀ s ∈ s3Snapshots,
      (s ∈ (ApplyUnified m now localSnapshots s3Snapshots).2.2.2 ↔
        lookupKeep (GetUnifiedRetentionStatus m now localSnapshots s3Snapshots) s.Name
          = false)) := by
  have h1 : (ApplyUnified m now localSnapshots s3Snapshots).1.2.2
      = localSnapshots.filter (fun s =>
          !(lookupKeep (GetUnifiedRetentionStatus m now localSnapshots s3Snapshots) s.Name)) := by
    unfold ApplyUnified applyRetentionToLocal
    rw [applyFold_removed]
    rfl
  have h2 : (ApplyUnified m now localSnapshots s3Snapshots).2.2.2
      = s3Snapshots.filter (fun s =>
          !(lookupKeep (GetUnifiedRetentionStatus m now localSnapshots s3Snapshots) s.Name)) := by
    unfold ApplyUnified applyRetentionToS3
    rw [applyFold_removed]
    rfl
  refine ⟨h1, h2, ?_, ?_⟩
  · intro s hs
    rw [h1]
    simp [List.mem_filter, hs, Bool.not_eq_true']
  · intro s hs
    rw [h2]
    simp [List.mem_filter, hs, Bool.not_eq_true']

/-- Witness for C4: with `KeepLast = 1`, the older local-only record is
deleted from the local store while the newer remote record is kept. -/
theorem C4_unified_verdict_applied_to_both_stores_witness :
    lookupKeep (GetUnifiedRetentionStatus ⟨1, 0, 0, 0, 0, 0, false, 0⟩ 10
      [⟨['a'], ['a'], 0, 1, false⟩] [⟨['b'], ['b'], 0, 2, true⟩]) ['a'] = false ∧
    ⟨['a'], ['a'], 0, 1, false⟩ ∈ (ApplyUnified ⟨1, 0, 0, 0, 0, 0, false, 0⟩ 10
      [⟨['a'], ['a'], 0, 1, false⟩] [⟨['b'], ['b'], 0, 2, true⟩]).1.2.2 :=
  ⟨by decide,
   ((C4_unified_verdict_applied_to_both_stores ⟨1, 0, 0, 0, 0, 0, false, 0⟩ 10
      [⟨['a'], ['a'], 0, 1, false⟩] [⟨['b'], ['b'], 0, 2, true⟩]).2.2.1
      ⟨['a'], ['a'], 0, 1, false⟩ (by decide)).mpr (by decide)⟩

/-- An append-if fold is a filter. -/
theorem foldl_filter_append (p : SnapshotFile → Bool) :
    ∀ (l init : List SnapshotFile),
      l.foldl (fun acc s => if p s then acc ++ [s] else acc) init = init ++ l.filter p
  | [], init => by simp
  | s :: l, init => by
    rw [List.foldl_cons, List.filter_cons]
    by_cases h : p s
    · rw [if_pos h, if_pos h, foldl_filter_append p l (init ++ [s])]
      simp
    · rw [if_neg h, if_neg h, foldl_filter_append p l init]

/-- Claim C7: the gap finder selects exactly the local records whose name the
retention verdict marks keep and whose name is absent from the S3 name set;
records marked delete or already present remotely are never selected. -/
theorem C7_upload_selects_kept_and_missing (unified : Bool) (m : RetentionPolicy) (now : Int)
    (localSnapshots s3Snapshots : List SnapshotFile) :
    (uploadMissingSnapshots unified m now localSnapshots s3Snapshots
      = localSnapshots.filter (fun s =>
          lookupKeep (if unified then GetUnifiedRetentionStatus m now localSnapshots s3Snapshots
            else GetRetentionStatus m now localSnapshots) s.Name
          && !((s3Snapshots.map (fun s => s.Name)).contains s.Name))) ∧
    (∀ s ∈ localSnapshots,
      (s ∈ uploadMissingSnapshots unified m now localSnapshots s3Snapshots ↔
        lookupKeep (if unified then GetUnifiedRetentionStatus m now localSnapshots s3Snapshots
          else GetRetentionStatus m now localSnapshots) s.Name = true ∧
        ¬ s.Name ∈ s3Snapshots.map (fun s => s.Name))) := by
  have h1 : uploadMissingSnapshots unified m now localSnapshots s3Snapshots
      = localSnapshots.filter (fun s =>
          lookupKeep (if unified then GetUnifiedRetentionStatus m now localSnapshots s3Snapshots
            else GetRetentionStatus m now localSnapshots) s.Name
          && !((s3Snapshots.map (fun s => s.Name)).contains s.Name)) := by
    unfold uploadMissingSnapshots
    rw [foldl_filter_append]
    rfl
  refine ⟨h1, ?_⟩
  intro s hs
  rw [h1]
  simp only [List.mem_filter, hs, true_and, Bool.and_eq_true, Bool.not_eq_true']
  have hc : ((s3Snapshots.map (fun s => s.Name)).contains s.Name = false) ↔
      ¬ s.Name ∈ s3Snapshots.map (fun s => s.Name) := by
    constructor
    · intro h hm
      have : lookupKeep (s3Snapshots.map (fun s => s.Name)) s.Name = true :=
        (lookupKeep_iff _ _).mpr hm
      rw [show lookupKeep (s3Snapshots.map (fun s => s.Name)) s.Name
          = (s3Snapshots.map (fun s => s.Name)).contains s.Name from rfl, h] at this
      cases this
    · intro h
      cases hcase : (s3Snapshots.map (fun s => s.Name)).contains s.Name with
      | false => rfl
      | true =>
        exact absurd ((lookupKeep_iff _ _).mp hcase) h
  rw [hc]

/-- Witness for C7: a kept local record missing remotely is selected; the
record the verdict deletes is not. -/
theorem C7_upload_selects_kept_and_missing_witness :
    ⟨['a'], ['a'], 0, 2, false⟩ ∈ uploadMissingSnapshots true ⟨1, 0, 0, 0, 0, 0, false, 0⟩ 10
      [⟨['a'], ['a'], 0, 2, false⟩, ⟨['b'], ['b'], 0, 1, false⟩] [] :=
  ((C7_upload_selects_kept_and_missing true ⟨1, 0, 0, 0, 0, 0, false, 0⟩ 10
      [⟨['a'], ['a'], 0, 2, false⟩, ⟨['b'], ['b'], 0, 1, false⟩] []).2
    ⟨['a'], ['a'], 0, 2, false⟩ (by decide)).mpr ⟨by decide, by decide⟩

/-! ## Claim theorems: name resolution -/

/-- A non-empty suffix pins down the last element. -/
theorem isSuffixOf_getLast? {suf s : GoStr} (h : suf.isSuffixOf s = true) (hne : suf ≠ []) :
    s.getLast? = suf.getLast? := by
  rw [List.isSuffixOf_iff_suffix] at h
  obtain ⟨t, rfl⟩ := h
  exact List.getLast?_append_of_ne_nil t hne

/-- A name ending in `.db` carries none of the compressed suffixes (their last
characters all differ from `b`), so it does not count as compressed. -/
theorem db_not_compressed {name : GoStr} (h : List.isSuffixOf ".db".toList name = true) :
    IsCompressed name = false := by
  have hdb := isSuffixOf_getLast? h (by decide)
  have hgz : List.isSuffixOf ".gz".toList name = false := by
    cases hc : List.isSuffixOf ".gz".toList name with
    | false => rfl
    | true => exact absurd (hdb.symm.trans (isSuffixOf_getLast? hc (by decide))) (by decide)
  have hbz : List.isSuffixOf ".bz2".toList name = false := by
    cases hc : List.isSuffixOf ".bz2".toList name with
    | false => rfl
    | true => exact absurd (hdb.symm.trans (isSuffixOf_getLast? hc (by decide))) (by decide)
  have hlz : List.isSuffixOf ".lz4".toList name = false := by
    cases hc : List.isSuffixOf ".lz4".toList name with
    | false => rfl
    | true => exact absurd (hdb.symm.trans (isSuffixOf_getLast? hc (by decide))) (by decide)
  have hzst : List.isSuffixOf ".zst".toList name = false := by
    cases hc : List.isSuffixOf ".zst".toList name with
    | false => rfl
    | true => exact absurd (hdb.symm.trans (isSuffixOf_getLast? hc (by decide))) (by decide)
  unfold IsCompressed GetCompressionAlgorithmFromExt
  rw [hgz, hbz, hlz, hzst]
  decide

/-- The candidate list for a `.db` name: the four compressed variants in
fixed preference order, then the uncompressed name. -/
theorem resolve_db_candidates {name : GoStr} (h : List.isSuffixOf ".db".toList name = true) :
    ResolveCompressedFilename name =
      [name ++ ".zst".toList, name ++ ".gz".toList, name ++ ".lz4".toList,
       name ++ ".bz2".toList, name] := by
  unfold ResolveCompressedFilename
  rw [db_not_compressed h]
  rw [if_neg (by simp), if_pos h]
  rfl

/-- Probing returns the first candidate whose existence check is true. -/
theorem probe_first_true (exist : GoStr → Bool × GoError) (key : GoStr) :
    ∀ (pre : List GoStr) (c : GoStr) (rest : List GoStr),
      (∀ p ∈ pre, exist p = (false, none)) → exist c = (true, none) →
      resolveProbe exist key (pre ++ c :: rest) = (c, true, none)
  | [], c, rest, _, hc => by
    simp only [List.nil_append, resolveProbe, hc]
  | p :: pre, c, rest, hpre, hc => by
    have hp := hpre p (List.mem_cons_self p pre)
    simp only [List.cons_append, resolveProbe, hp]
    exact probe_first_true exist key pre c rest
      (fun q hq => hpre q (List.mem_cons_of_mem p hq)) hc

/-- Probing past candidates that do not exist, exhausting the list, yields the
not-found outcome carrying the original key. -/
theorem probe_all_false (exist : GoStr → Bool × GoError) (key : GoStr) :
    ∀ (cands : List GoStr), (∀ c ∈ cands, exist c = (false, none)) →
      resolveProbe exist key cands = (key, false, none)
  | [], _ => rfl
  | c :: cands, h => by
    simp only [resolveProbe, h c (List.mem_cons_self c cands)]
    exact probe_all_false exist key cands (fun q hq => h q (List.mem_cons_of_mem c hq))

/-- An existence-check error aborts the probe with a wrapped error. -/
theorem probe_error (exist : GoStr → Bool × GoError) (key : GoStr) :
    ∀ (pre : List GoStr) (c : GoStr) (rest : List GoStr) (e : GoStr),
      (∀ p ∈ pre, exist p = (false, none)) → (exist c).2 = some e →
      resolveProbe exist key (pre ++ c :: rest)
        = ([], false, some ("failed to check existence of ".toList ++ c ++ ": ".toList ++ e))
  | [], c, rest, e, _, hc => by
    obtain ⟨b, hb⟩ : ∃ b, exist c = (b, some e) := ⟨(exist c).1, by rw [← hc]⟩
    simp only [List.nil_append, resolveProbe, hb]
  | p :: pre, c, rest, e, hpre, hc => by
    have hp := hpre p (List.mem_cons_self p pre)
    simp only [List.cons_append, resolveProbe, hp]
    exact probe_error exist key pre c rest e
      (fun q hq => hpre q (List.mem_cons_of_mem p hq)) hc

/-- Claim C6: a `.db` name that carries no compressed suffix expands to
exactly the four compressed variants in fixed priority order, `zstd` (the
default algorithm) first, followed by the uncompressed name; an
already-compressed name and any other name shape resolve to themselves; the
store probe takes candidates strictly in order and returns the first that
exists, so when all four compressed variants exist resolution returns the
`zstd` variant. -/
theorem C6_candidate_order_and_priority :
    (∀ name : GoStr, List.isSuffixOf ".db".toList name = true →
      IsCompressed name = false ∧
      ResolveCompressedFilename name =
        [name ++ ".zst".toList, name ++ ".gz".toList, name ++ ".lz4".toList,
         name ++ ".bz2".toList, name]) ∧
    (∀ name : GoStr, IsCompressed name = true → ResolveCompressedFilename name = [name]) ∧
    (∀ name : GoStr, IsCompressed name = false → List.isSuffixOf ".db".toList name = false →
      ResolveCompressedFilename name = [name]) ∧
    (∀ (exist : GoStr → Bool × GoError) (key : GoStr) (pre : List GoStr) (c : GoStr)
      (rest : List GoStr), ResolveCompressedFilename key = pre ++ c :: rest →
      (∀ p ∈ pre, exist p = (false, none)) → exist c = (true, none) →
      ResolveCompressedKey exist key = (c, true, none)) ∧
    (∀ (exist : GoStr → Bool × GoError) (name : GoStr),
      List.isSuffixOf ".db".toList name = true →
      exist (name ++ ".zst".toList) = (true, none) →
      exist (name ++ ".gz".toList) = (true, none) →
      exist (name ++ ".lz4".toList) = (true, none) →
      exist (name ++ ".bz2".toList) = (true, none) →
      ResolveCompressedKey exist name = (name ++ ".zst".toList, true, none)) := by
  refine ⟨?_, ?_, ?_, ?_, ?_⟩
  · intro name h
    exact ⟨db_not_compressed h, resolve_db_candidates h⟩
  · intro name h
    unfold ResolveCompressedFilename
    rw [h]
    simp
  · intro name h1 h2
    unfold ResolveCompressedFilename
    rw [h1, h2]
    simp
  · intro exist key pre c rest hsplit hpre hc
    unfold ResolveCompressedKey
    rw [hsplit]
    exact probe_first_true exist key pre c rest hpre hc
  · intro exist name h hz _ _ _
    unfold ResolveCompressedKey
    rw [resolve_db_candidates h]
    exact probe_first_true exist name [] (name ++ ".zst".toList) _ (by simp) hz

/-- Witness for C6 at `snap.db` with every candidate existing. -/
theorem C6_candidate_order_and_priority_witness :
    ResolveCompressedKey (fun _ => (true, none)) "snap.db".toList
      = ("snap.db".toList ++ ".zst".toList, true, none) :=
  C6_candidate_order_and_priority.2.2.2.2 (fun _ => (true, none)) "snap.db".toList
    (by decide) rfl rfl rfl rfl

/-- Claim C9: exhausting every candidate yields a not-found outcome carrying
the originally requested key, and the restore path's error names that key and
says both compressed and uncompressed versions were checked; an error from
the existence check itself is propagated as an error, not converted into
not-found. -/
theorem C9_not_found_reports_key_and_errors_propagate
    (existA existB : GoStr → Bool × GoError) (key : GoStr) (e : GoStr) (pre : List GoStr)
    (c : GoStr) (rest : List GoStr)
    (hA : ∀ cand ∈ ResolveCompressedFilename key, existA cand = (false, none))
    (hsplit : ResolveCompressedFilename key = pre ++ c :: rest)
    (hpre : ∀ p ∈ pre, existB p = (false, none))
    (hc : (existB c).2 = some e) :
    ResolveCompressedKey existA key = (key, false, none) ∧
    downloadSnapshotResolve existA key
      = Except.error ("snapshot not found in S3: ".toList ++ key ++
          " (checked compressed and uncompressed versions)".toList) ∧
    key <:+: ("snapshot not found in S3: ".toList ++ key ++
          " (checked compressed and uncompressed versions)".toList) ∧
    ResolveCompressedKey existB key
      = ([], false, some ("failed to check existence of ".toList ++ c ++ ": ".toList ++ e)) ∧
    downloadSnapshotResolve existB key
      = Except.error ("failed to resolve compressed snapshot: ".toList ++
          ("failed to check existence of ".toList ++ c ++ ": ".toList ++ e)) := by
  have hresA : ResolveCompressedKey existA key = (key, false, none) :=
    probe_all_false existA key _ hA
  have hresB : ResolveCompressedKey existB key
      = ([], false, some ("failed to check existence of ".toList ++ c ++ ": ".toList ++ e)) := by
    unfold ResolveCompressedKey
    rw [hsplit]
    exact probe_error existB key pre c rest e hpre hc
  refine ⟨hresA, ?_, ⟨"snapshot not found in S3: ".toList,
    " (checked compressed and uncompressed versions)".toList, rfl⟩, hresB, ?_⟩
  · unfold downloadSnapshotResolve
    rw [hresA]
    rfl
  · unfold downloadSnapshotResolve
    rw [hresB]

/-- Witness for C9: a store where nothing exists, and a store whose existence
check fails on the first candidate. -/
theorem C9_not_found_reports_key_and_errors_propagate_witness :
    ResolveCompressedKey (fun _ => (false, none)) "snap.db".toList
      = ("snap.db".toList, false, none) ∧
    ResolveCompressedKey (fun _ => (false, some "boom".toList)) "snap.db".toList
      = ([], false, some ("failed to check existence of ".toList ++
          ("snap.db".toList ++ ".zst".toList) ++ ": ".toList ++ "boom".toList)) := by
  have h := C9_not_found_reports_key_and_errors_propagate
    (fun _ => (false, none)) (fun _ => (false, some "boom".toList)) "snap.db".toList
    "boom".toList [] ("snap.db".toList ++ ".zst".toList)
    ["snap.db".toList ++ ".gz".toList, "snap.db".toList ++ ".lz4".toList,
     "snap.db".toList ++ ".bz2".toList, "snap.db".toList]
    (by decide) (by decide) (by decide) rfl
  exact ⟨h.1, h.2.2.2.1⟩

end Etcd2S3
